import Mathlib

/-!
Verification of `Source/Core/arrayRemoveDuplicates.js`.

The source is a single function that removes adjacent duplicate values from an
array, comparing values with a pluggable `objectType.equalsEpsilon` at the
fixed tolerance `CesiumMath.EPSILON10`, and optionally treating the array as
circular (`wrapAround`).  The embedding below models arrays as `List`,
JavaScript `undefined` as `Option.none`, and the thrown `DeveloperError` as
`Except.error` carrying the source's message string.
-/

/-- Value-operations capability: the `objectType` parameter of the source.
It must supply `equalsEpsilon(left, right, epsilon)` and `clone(v)`. -/
structure ObjectType (α : Type) where
  equalsEpsilon : α → α → ℚ → Bool
  clone : α → α

/-- Modelled from the spec: the tolerance constant `CesiumMath.EPSILON10`
is imported from `./Math`, which is not part of this source slice; the spec
fixes its value at `1e-10` (spec section 3, "Epsilon"). -/
def removeDuplicatesEpsilon : ℚ := Rat.divInt 1 10000000000

variable {α : Type} {β : Type}

/-- Adjacent comparison as the source always performs it: `equalsEpsilon` at
the fixed tolerance `removeDuplicatesEpsilon`. -/
def eqE (T : ObjectType α) (a b : α) : Bool :=
  T.equalsEpsilon a b removeDuplicatesEpsilon

/-- Second loop of the source (lines 72-79): `v0` is the last accepted value;
each subsequent value `v1` is skipped when `equalsEpsilon(v0, v1, eps)` holds,
and otherwise a clone of it is pushed and it becomes the new `v0`. -/
def dedupFrom (T : ObjectType α) : α → List α → List α
  | _, [] => []
  | v0, v1 :: rest =>
    if T.equalsEpsilon v0 v1 removeDuplicatesEpsilon then dedupFrom T v0 rest
    else T.clone v1 :: dedupFrom T v1 rest

/-- First loop of the source (lines 58-64) fused with the construction of the
prefix `values.slice(0, i)` (line 71).  Result `none` means the loop ran to
`i === length` (no adjacent duplicate); result `some cleaned` is the cleaned
array: the elements before the first duplicate pair followed by the output of
the second loop (`dedupFrom`) started at the duplicate. -/
def buildClean (T : ObjectType α) : α → List α → Option (List α)
  | _, [] => none
  | v0, v1 :: rest =>
    if T.equalsEpsilon v0 v1 removeDuplicatesEpsilon then
      some (v0 :: dedupFrom T v0 (v1 :: rest))
    else
      match buildClean T v1 rest with
      | none => none
      | some t => some (v0 :: t)

/-- The body of `arrayRemoveDuplicates` (source lines 46-85), after the two
argument checks (modelled separately in `arrayRemoveDuplicatesChecked`).
Branches map to the source as follows: the `length < 2` early return
(lines 48-50); the `i === length` branch returning `values.slice(1)` or
`values` (lines 64-69); and the cleaned-array branch with the final
`wrapAround` shift of the first element (lines 71-85). -/
def arrayRemoveDuplicates (T : ObjectType α) (values : List α)
    (wrapAround : Bool) : List α :=
  if values.length < 2 then values
  else
    match values with
    | [] => values
    | v0 :: rest =>
      match buildClean T v0 rest with
      | none =>
        if wrapAround && T.equalsEpsilon v0 (rest.getLastD v0) removeDuplicatesEpsilon
        then rest
        else values
      | some cleaned =>
        if wrapAround && decide (1 < cleaned.length)
            && T.equalsEpsilon (cleaned.headD v0) (cleaned.getLastD v0) removeDuplicatesEpsilon
        then cleaned.tail
        else cleaned

/-- Modelled from the spec: `defaultValue(a, b)` from `./defaultValue` (not in
this slice) returns `a` when it is defined and `b` otherwise. -/
def defaultValue (a : Option β) (b : β) : β := a.getD b

/-- The argument validation of the source (lines 37-44): `values` is checked
first, then `objectType`; each missing argument throws a `DeveloperError`
with the corresponding message, before any scanning happens.  A missing
(JavaScript `undefined`) argument is modelled as `none`. -/
def arrayRemoveDuplicatesChecked (values : Option (List α))
    (objectType : Option (ObjectType α)) (wrapAround : Option Bool) :
    Except String (List α) :=
  match values with
  | none => Except.error "values is required."
  | some vs =>
    match objectType with
    | none => Except.error "objectType is required."
    | some T => Except.ok (arrayRemoveDuplicates T vs (defaultValue wrapAround false))

/-- A list has an adjacent duplicate when some pair of consecutive elements
satisfies the comparison `e`. -/
def hasAdjDup (e : α → α → Bool) : List α → Bool
  | a :: b :: rest => e a b || hasAdjDup e (b :: rest)
  | _ => false

/-! Concrete value types used by the example scenarios and counterexamples. -/

/-- Absolute-difference comparison on rationals, written with integer
cross-multiplication so that it evaluates by kernel reduction: for a positive
tolerance `eps` it decides `|a - b| < eps`, since
`a - b = (a.num * b.den - b.num * a.den) / (a.den * b.den)` with positive
denominator. -/
def qAbsLt (a b eps : ℚ) : Bool :=
  decide (((a.num * (b.den : ℤ) - b.num * (a.den : ℤ)).natAbs : ℤ) * (eps.den : ℤ)
            < eps.num * ((a.den : ℤ) * (b.den : ℤ)))

/-- A rational expressed in units of `1e-11`, one tenth of
`removeDuplicatesEpsilon`: `q11 n` is `n / 10 ^ 11`, so `eqE ratOps`
identifies `q11 m` and `q11 n` exactly when `|m - n| < 10`. -/
def q11 (n : ℤ) : ℚ := Rat.divInt n 100000000000

/-- An integer-valued rational, `qz n = n`. -/
def qz (n : ℤ) : ℚ := Rat.divInt n 1

/-- Value operations on rationals: absolute-difference epsilon comparison
and a copying clone. -/
def ratOps : ObjectType ℚ :=
  ⟨fun a b eps => qAbsLt a b eps, fun v => v⟩

/-- Modelled from the spec: the 3-tuple (Cartesian3-style) value type of the
spec's example scenarios, with componentwise absolute epsilon comparison; the
concrete value type is not part of this source slice. -/
def tuple3Ops : ObjectType (ℚ × ℚ × ℚ) :=
  ⟨fun a b eps => qAbsLt a.1 b.1 eps && qAbsLt a.2.1 b.2.1 eps && qAbsLt a.2.2 b.2.2 eps,
    fun v => v⟩

/-- The tuple `(1.0, 1.0, 1.0)` of the spec's example scenarios. -/
def c1t : ℚ × ℚ × ℚ := (qz 1, qz 1, qz 1)

/-- The tuple `(2.0, 2.0, 2.0)` of the spec's example scenarios. -/
def c2t : ℚ × ℚ × ℚ := (qz 2, qz 2, qz 2)

/-- The tuple `(3.0, 3.0, 3.0)` of the spec's example scenarios. -/
def c3t : ℚ × ℚ × ℚ := (qz 3, qz 3, qz 3)

/-- Concrete rational input (in units of `1e-11`, tolerance is 10 units):
`[0, 0, 15, 30, 8]`.  Its interior duplicate forces the cleaned-array branch;
the cleaned array is `[0, 15, 30, 8]`, whose first and last are epsilon-equal
(distance 8), so the wrap-around pass drops the leading `0`, leaving
`[15, 30, 8]` — whose first and last are again epsilon-equal (distance 7). -/
def cexValues : List ℚ := [q11 0, q11 0, q11 15, q11 30, q11 8]

/-! Helper lemmas about the embedded definitions. -/

theorem eqE_def (T : ObjectType α) (a b : α) :
    eqE T a b = T.equalsEpsilon a b removeDuplicatesEpsilon := rfl

theorem hasAdjDup_cons_cons (e : α → α → Bool) (a b : α) (l : List α) :
    hasAdjDup e (a :: b :: l) = (e a b || hasAdjDup e (b :: l)) := rfl

theorem hasAdjDup_of_cons (e : α → α → Bool) (a : α) (l : List α)
    (h : hasAdjDup e (a :: l) = false) : hasAdjDup e l = false := by
  cases l with
  | nil => rfl
  | cons b rest =>
    rw [hasAdjDup_cons_cons] at h
    exact (Bool.or_eq_false_iff.mp h).2

theorem dedupFrom_length_le (T : ObjectType α) (l : List α) : ∀ v0 : α,
    (dedupFrom T v0 l).length ≤ l.length := by
  induction l with
  | nil => intro v0; exact Nat.le_refl 0
  | cons v1 rest ih =>
    intro v0
    rw [dedupFrom]
    cases h : T.equalsEpsilon v0 v1 removeDuplicatesEpsilon
    · simp only [Bool.false_eq_true, if_false, List.length_cons]
      exact Nat.succ_le_succ (ih v1)
    · simp only [if_true]
      exact Nat.le_succ_of_le (ih v0)

theorem hasAdjDup_cons_dedupFrom (T : ObjectType α) (hclone : ∀ v, T.clone v = v)
    (l : List α) : ∀ v0 : α, hasAdjDup (eqE T) (v0 :: dedupFrom T v0 l) = false := by
  induction l with
  | nil => intro v0; rfl
  | cons v1 rest ih =>
    intro v0
    rw [dedupFrom]
    cases h : T.equalsEpsilon v0 v1 removeDuplicatesEpsilon
    · simp only [Bool.false_eq_true, if_false, hclone v1, hasAdjDup_cons_cons,
        eqE_def, h, Bool.false_or]
      exact ih v1
    · simp only [if_true]
      exact ih v0

theorem buildClean_shape (T : ObjectType α) (l : List α) : ∀ (v0 : α) (cl : List α),
    buildClean T v0 l = some cl → ∃ t, cl = v0 :: t := by
  induction l with
  | nil => intro v0 cl h; exact absurd h (by simp [buildClean])
  | cons v1 rest ih =>
    intro v0 cl h
    rw [buildClean] at h
    cases hd : T.equalsEpsilon v0 v1 removeDuplicatesEpsilon
    · rw [hd] at h
      simp only [Bool.false_eq_true, if_false] at h
      cases hb : buildClean T v1 rest with
      | none => rw [hb] at h; exact absurd h (by simp)
      | some t =>
        rw [hb] at h
        simp only [Option.some.injEq] at h
        exact ⟨t, h.symm⟩
    · rw [hd] at h
      simp only [if_true, Option.some.injEq] at h
      exact ⟨dedupFrom T v0 (v1 :: rest), h.symm⟩

theorem buildClean_eq_none_iff (T : ObjectType α) (l : List α) : ∀ v0 : α,
    buildClean T v0 l = none ↔ hasAdjDup (eqE T) (v0 :: l) = false := by
  induction l with
  | nil => intro v0; simp [buildClean, hasAdjDup]
  | cons v1 rest ih =>
    intro v0
    rw [buildClean, hasAdjDup_cons_cons]
    cases hd : T.equalsEpsilon v0 v1 removeDuplicatesEpsilon
    · simp only [Bool.false_eq_true, if_false, eqE_def, hd, Bool.false_or]
      cases hb : buildClean T v1 rest with
      | none => simp only [Bool.false_eq_true]; simpa using (ih v1).mp hb
      | some t =>
        constructor
        · intro h; exact absurd h (by simp)
        · intro h
          exact absurd ((ih v1).mpr h) (by simp [hb])
    · simp only [if_true, eqE_def, hd, Bool.true_or]
      constructor
      · intro h; exact absurd h (by simp)
      · intro h; exact absurd h (by simp)

theorem buildClean_hasAdjDup (T : ObjectType α) (hclone : ∀ v, T.clone v = v)
    (l : List α) : ∀ (v0 : α) (cl : List α),
    buildClean T v0 l = some cl → hasAdjDup (eqE T) cl = false := by
  induction l with
  | nil => intro v0 cl h; exact absurd h (by simp [buildClean])
  | cons v1 rest ih =>
    intro v0 cl h
    rw [buildClean] at h
    cases hd : T.equalsEpsilon v0 v1 removeDuplicatesEpsilon
    · rw [hd] at h
      simp only [Bool.false_eq_true, if_false] at h
      cases hb : buildClean T v1 rest with
      | none => rw [hb] at h; exact absurd h (by simp)
      | some t =>
        rw [hb] at h
        simp only [Option.some.injEq] at h
        obtain ⟨t', rfl⟩ := buildClean_shape T rest v1 t hb
        rw [← h, hasAdjDup_cons_cons, eqE_def, hd, Bool.false_or]
        exact ih v1 (v1 :: t') hb
    · rw [hd] at h
      simp only [if_true, Option.some.injEq] at h
      rw [← h]
      exact hasAdjDup_cons_dedupFrom T hclone (v1 :: rest) v0

theorem buildClean_length_le (T : ObjectType α) (l : List α) : ∀ (v0 : α) (cl : List α),
    buildClean T v0 l = some cl → cl.length ≤ l.length := by
  induction l with
  | nil => intro v0 cl h; exact absurd h (by simp [buildClean])
  | cons v1 rest ih =>
    intro v0 cl h
    rw [buildClean] at h
    cases hd : T.equalsEpsilon v0 v1 removeDuplicatesEpsilon
    · rw [hd] at h
      simp only [Bool.false_eq_true, if_false] at h
      cases hb : buildClean T v1 rest with
      | none => rw [hb] at h; exact absurd h (by simp)
      | some t =>
        rw [hb] at h
        simp only [Option.some.injEq] at h
        rw [← h, List.length_cons, List.length_cons]
        exact Nat.succ_le_succ (ih v1 t hb)
    · rw [hd] at h
      simp only [if_true, Option.some.injEq] at h
      rw [← h, List.length_cons, List.length_cons]
      have hskip : dedupFrom T v0 (v1 :: rest) = dedupFrom T v0 rest := by
        rw [dedupFrom, if_pos hd]
      rw [hskip]
      exact Nat.succ_le_succ (dedupFrom_length_le T rest v0)

theorem arrayRemoveDuplicates_short (T : ObjectType α) (values : List α) (w : Bool)
    (h : values.length < 2) : arrayRemoveDuplicates T values w = values := by
  unfold arrayRemoveDuplicates
  rw [if_pos h]

theorem arrayRemoveDuplicates_cons_none (T : ObjectType α) (v0 v1 : α) (rest : List α)
    (w : Bool) (h : buildClean T v0 (v1 :: rest) = none) :
    arrayRemoveDuplicates T (v0 :: v1 :: rest) w =
      if w && T.equalsEpsilon v0 ((v1 :: rest).getLastD v0) removeDuplicatesEpsilon
      then v1 :: rest else v0 :: v1 :: rest := by
  unfold arrayRemoveDuplicates
  rw [if_neg (by simp)]
  simp only [h]

theorem arrayRemoveDuplicates_cons_some (T : ObjectType α) (v0 v1 : α) (rest : List α)
    (w : Bool) (cleaned : List α) (h : buildClean T v0 (v1 :: rest) = some cleaned) :
    arrayRemoveDuplicates T (v0 :: v1 :: rest) w =
      if w && decide (1 < cleaned.length)
          && T.equalsEpsilon (cleaned.headD v0) (cleaned.getLastD v0) removeDuplicatesEpsilon
      then cleaned.tail else cleaned := by
  unfold arrayRemoveDuplicates
  rw [if_neg (by simp)]
  simp only [h]

theorem arrayRemoveDuplicates_false_of_none (T : ObjectType α) (v0 v1 : α)
    (rest : List α) (h : buildClean T v0 (v1 :: rest) = none) :
    arrayRemoveDuplicates T (v0 :: v1 :: rest) false = v0 :: v1 :: rest := by
  rw [arrayRemoveDuplicates_cons_none T v0 v1 rest false h, if_neg (by simp)]

theorem arrayRemoveDuplicates_false_of_some (T : ObjectType α) (v0 v1 : α)
    (rest : List α) (cleaned : List α)
    (h : buildClean T v0 (v1 :: rest) = some cleaned) :
    arrayRemoveDuplicates T (v0 :: v1 :: rest) false = cleaned := by
  rw [arrayRemoveDuplicates_cons_some T v0 v1 rest false cleaned h, if_neg (by simp)]

theorem arrayRemoveDuplicates_of_clean (T : ObjectType α) (l : List α)
    (h : hasAdjDup (eqE T) l = false) : arrayRemoveDuplicates T l false = l := by
  match l with
  | [] => exact arrayRemoveDuplicates_short T [] false (by simp)
  | [v] => exact arrayRemoveDuplicates_short T [v] false (by simp)
  | v0 :: v1 :: rest =>
    have hb : buildClean T v0 (v1 :: rest) = none :=
      (buildClean_eq_none_iff T (v1 :: rest) v0).mpr h
    rw [arrayRemoveDuplicates_cons_none T v0 v1 rest false hb, if_neg (by simp)]

theorem hasAdjDup_arrayRemoveDuplicates (T : ObjectType α) (hclone : ∀ v, T.clone v = v)
    (values : List α) (w : Bool) :
    hasAdjDup (eqE T) (arrayRemoveDuplicates T values w) = false := by
  match values with
  | [] => rw [arrayRemoveDuplicates_short T [] w (by simp)]; rfl
  | [v] => rw [arrayRemoveDuplicates_short T [v] w (by simp)]; rfl
  | v0 :: v1 :: rest =>
    cases hb : buildClean T v0 (v1 :: rest) with
    | none =>
      have hcl : hasAdjDup (eqE T) (v0 :: v1 :: rest) = false :=
        (buildClean_eq_none_iff T (v1 :: rest) v0).mp hb
      rw [arrayRemoveDuplicates_cons_none T v0 v1 rest w hb]
      split
      · exact hasAdjDup_of_cons (eqE T) v0 (v1 :: rest) hcl
      · exact hcl
    | some cleaned =>
      have hcl : hasAdjDup (eqE T) cleaned = false :=
        buildClean_hasAdjDup T hclone (v1 :: rest) v0 cleaned hb
      rw [arrayRemoveDuplicates_cons_some T v0 v1 rest w cleaned hb]
      split
      · obtain ⟨t, rfl⟩ := buildClean_shape T (v1 :: rest) v0 cleaned hb
        rw [List.tail_cons]
        exact hasAdjDup_of_cons (eqE T) v0 t hcl
      · exact hcl

theorem dedupFrom_all_eq (T : ObjectType α) (l : List α) : ∀ v0 : α,
    (∀ x ∈ l, T.equalsEpsilon v0 x removeDuplicatesEpsilon = true) →
    dedupFrom T v0 l = [] := by
  induction l with
  | nil => intro v0 _; rfl
  | cons v1 rest ih =>
    intro v0 h
    rw [dedupFrom, if_pos (h v1 (by simp))]
    exact ih v0 (fun x hx => h x (by simp [hx]))

/-! Claim theorems. -/

/-- C1 counterexample: the input `cexValues` with `wrapAround = true` yields a
newly allocated output (it differs from the input), yet the first and last
elements of that output compare equal within epsilon, contradicting the
claimed invariant as stated. -/
theorem C1_counterexample :
    arrayRemoveDuplicates ratOps cexValues true = [q11 15, q11 30, q11 8] ∧
    arrayRemoveDuplicates ratOps cexValues true ≠ cexValues ∧
    eqE ratOps (q11 15) (q11 8) = true :=
  ⟨by decide, by decide, by decide⟩

/-- C1 (amended): with a clone operation that returns values equal to its
argument, the output of `arrayRemoveDuplicates` never contains two adjacent
elements that compare equal within epsilon; a zero- or one-length input is
returned unmodified; and an already-clean input (no adjacent epsilon-equal
pair and, when `wrapAround` is set, first and last not epsilon-equal) is
returned unmodified.  The wrap-around clause of the original claim is
dropped: after the single wrap-around removal the new first and new last
elements may still compare equal within epsilon (`C1_counterexample`). -/
theorem C1_invariant_amended (T : ObjectType α) (values : List α) (wrapAround : Bool)
    (hclone : ∀ v, T.clone v = v) :
    hasAdjDup (eqE T) (arrayRemoveDuplicates T values wrapAround) = false ∧
    (values.length < 2 → arrayRemoveDuplicates T values wrapAround = values) ∧
    (∀ v0 rest, values = v0 :: rest → hasAdjDup (eqE T) values = false →
      (wrapAround = false ∨ eqE T v0 (rest.getLastD v0) = false) →
      arrayRemoveDuplicates T values wrapAround = values) := by
  refine ⟨hasAdjDup_arrayRemoveDuplicates T hclone values wrapAround,
    fun h => arrayRemoveDuplicates_short T values wrapAround h, ?_⟩
  intro v0 rest hv hclean hcond
  subst hv
  cases rest with
  | nil => exact arrayRemoveDuplicates_short T [v0] wrapAround (by simp)
  | cons v1 rest' =>
    have hb : buildClean T v0 (v1 :: rest') = none :=
      (buildClean_eq_none_iff T (v1 :: rest') v0).mpr hclean
    rw [arrayRemoveDuplicates_cons_none T v0 v1 rest' wrapAround hb]
    rcases hcond with hw | he
    · subst hw; rw [if_neg (by simp)]
    · rw [eqE_def] at he
      rw [if_neg (by rw [he]; simp)]

/-- C1 witness: the amended invariant evaluated at a concrete input. -/
theorem C1_invariant_amended_witness :
    hasAdjDup (eqE ratOps) (arrayRemoveDuplicates ratOps cexValues true) = false :=
  (C1_invariant_amended ratOps cexValues true (fun _ => rfl)).1

/-- C2: at the spec's wrap-around example input the code returns the cleaned
array with its FIRST element removed (the `shift()` on line 82), namely
`[(2,2,2), (3,3,3), (1,1,1)]`, not the `[(1,1,1), (2,2,2), (3,3,3)]` promised
by the claim and by the source's own doc comment; the claimed output is
therefore wrong about the code (a code/documentation divergence). -/
theorem C2_code_result :
    arrayRemoveDuplicates tuple3Ops [c1t, c1t, c2t, c3t, c1t] true = [c2t, c3t, c1t] ∧
    ([c2t, c3t, c1t] : List (ℚ × ℚ × ℚ)) ≠ [c1t, c2t, c3t] :=
  ⟨by decide, by decide⟩

/-- C3 counterexample: with `wrapAround = true` the filter is not idempotent:
applying it a second time to the output of `cexValues` removes yet another
leading element. -/
theorem C3_counterexample :
    arrayRemoveDuplicates ratOps (arrayRemoveDuplicates ratOps cexValues true) true
      ≠ arrayRemoveDuplicates ratOps cexValues true := by decide

/-- C3 (amended): with `wrapAround = false` (and a clone returning values
equal to its argument) the filter is idempotent.  With `wrapAround = true`
idempotence fails (`C3_counterexample`): the output's first and last elements
can again compare equal within epsilon, and the second application's
wrap-around pass removes one more element. -/
theorem C3_idempotent_amended (T : ObjectType α) (values : List α)
    (hclone : ∀ v, T.clone v = v) :
    arrayRemoveDuplicates T (arrayRemoveDuplicates T values false) false
      = arrayRemoveDuplicates T values false :=
  arrayRemoveDuplicates_of_clean T _ (hasAdjDup_arrayRemoveDuplicates T hclone values false)

/-- C3 witness: idempotence without wrap-around at a concrete input. -/
theorem C3_idempotent_amended_witness :
    arrayRemoveDuplicates ratOps (arrayRemoveDuplicates ratOps cexValues false) false
      = arrayRemoveDuplicates ratOps cexValues false :=
  C3_idempotent_amended ratOps cexValues (fun _ => rfl)

/-- C4: for every input, running with `wrapAround = true` returns either
exactly the `wrapAround = false` result, or that result with its first
element removed — the wrap-around step removes at most the one leading
element and never iterates further. -/
theorem C4_wrap_single_removal (T : ObjectType α) (values : List α) :
    arrayRemoveDuplicates T values true = arrayRemoveDuplicates T values false ∨
    arrayRemoveDuplicates T values true = (arrayRemoveDuplicates T values false).tail := by
  match values with
  | [] =>
    rw [arrayRemoveDuplicates_short T [] true (by simp),
        arrayRemoveDuplicates_short T [] false (by simp)]
    exact Or.inl rfl
  | [v] =>
    rw [arrayRemoveDuplicates_short T [v] true (by simp),
        arrayRemoveDuplicates_short T [v] false (by simp)]
    exact Or.inl rfl
  | v0 :: v1 :: rest =>
    cases hb : buildClean T v0 (v1 :: rest) with
    | none =>
      rw [arrayRemoveDuplicates_cons_none T v0 v1 rest true hb,
          arrayRemoveDuplicates_false_of_none T v0 v1 rest hb]
      split
      · right; rfl
      · left; rfl
    | some cleaned =>
      rw [arrayRemoveDuplicates_cons_some T v0 v1 rest true cleaned hb,
          arrayRemoveDuplicates_false_of_some T v0 v1 rest cleaned hb]
      split
      · right; rfl
      · left; rfl

/-- C5 counterexample: epsilon-equality is not transitive, so a run of
consecutive epsilon-equal elements need not collapse to exactly one element.
In `[0, 9, 18]` (units of `1e-11`, tolerance 10) all three elements form a
run of adjacent epsilon-equal elements, yet two of them survive; in
`[0, 9, -9, -5, 50]` the run `[-9, -5]` (its two members epsilon-equal to
each other and to no neighbour of the run) vanishes entirely from the
output. -/
theorem C5_counterexample :
    (arrayRemoveDuplicates ratOps [q11 0, q11 9, q11 18] false = [q11 0, q11 18] ∧
     eqE ratOps (q11 0) (q11 9) = true ∧ eqE ratOps (q11 9) (q11 18) = true) ∧
    (arrayRemoveDuplicates ratOps [q11 0, q11 9, q11 (-9), q11 (-5), q11 50] false
        = [q11 0, q11 50] ∧
     eqE ratOps (q11 (-9)) (q11 (-5)) = true ∧
     eqE ratOps (q11 9) (q11 (-9)) = false ∧ eqE ratOps (q11 (-5)) (q11 50) = false ∧
     q11 (-9) ∉ [q11 0, q11 50] ∧ q11 (-5) ∉ [q11 0, q11 50]) :=
  ⟨⟨by decide, by decide, by decide⟩,
   ⟨by decide, by decide, by decide, by decide, by decide, by decide⟩⟩

/-- C5 (amended): when the whole input (of length at least 2) is one run —
every later element compares equal within epsilon to the first element — the
output is exactly the one-element sequence holding the first element,
regardless of `wrapAround`.  For interior runs the original claim fails
because epsilon-equality is not transitive (`C5_counterexample`). -/
theorem C5_run_amended (T : ObjectType α) (v0 v1 : α) (rest : List α) (wrapAround : Bool)
    (hrun : ∀ x ∈ v1 :: rest, T.equalsEpsilon v0 x removeDuplicatesEpsilon = true) :
    arrayRemoveDuplicates T (v0 :: v1 :: rest) wrapAround = [v0] := by
  have hb : buildClean T v0 (v1 :: rest) = some [v0] := by
    rw [buildClean, if_pos (hrun v1 (by simp)), dedupFrom_all_eq T (v1 :: rest) v0 hrun]
  rw [arrayRemoveDuplicates_cons_some T v0 v1 rest wrapAround [v0] hb,
      if_neg (by simp)]

/-- C5 witness: a three-element run collapses to its first element. -/
theorem C5_run_amended_witness :
    arrayRemoveDuplicates ratOps [q11 0, q11 1, q11 2] false = [q11 0] :=
  C5_run_amended ratOps (q11 0) (q11 1) [q11 2] false (by decide)

/-- C6: an input with no adjacent epsilon-equal pair and `wrapAround = false`,
or of length below two, is returned unchanged. -/
theorem C6_clean_unchanged (T : ObjectType α) (values : List α)
    (h : values.length < 2 ∨ hasAdjDup (eqE T) values = false) :
    arrayRemoveDuplicates T values false = values := by
  rcases h with h | h
  · exact arrayRemoveDuplicates_short T values false h
  · exact arrayRemoveDuplicates_of_clean T values h

/-- C6 witness: a duplicate-free input is returned unchanged. -/
theorem C6_clean_unchanged_witness :
    arrayRemoveDuplicates ratOps [q11 0, q11 20, q11 40] false = [q11 0, q11 20, q11 40] :=
  C6_clean_unchanged ratOps [q11 0, q11 20, q11 40] (Or.inr (by decide))

/-- C7: for an input of length at least 2 with no interior adjacent
epsilon-duplicate and `wrapAround = true`: when the first and last elements
compare equal within epsilon the result is the input with its first element
removed (`values.slice(1)`, line 66), otherwise the input is returned
unchanged. -/
theorem C7_wrap_no_interior_dup (T : ObjectType α) (v0 v1 : α) (rest : List α)
    (hclean : hasAdjDup (eqE T) (v0 :: v1 :: rest) = false) :
    (T.equalsEpsilon v0 ((v1 :: rest).getLastD v0) removeDuplicatesEpsilon = true →
      arrayRemoveDuplicates T (v0 :: v1 :: rest) true = v1 :: rest) ∧
    (T.equalsEpsilon v0 ((v1 :: rest).getLastD v0) removeDuplicatesEpsilon = false →
      arrayRemoveDuplicates T (v0 :: v1 :: rest) true = v0 :: v1 :: rest) := by
  have hb : buildClean T v0 (v1 :: rest) = none :=
    (buildClean_eq_none_iff T (v1 :: rest) v0).mpr hclean
  rw [arrayRemoveDuplicates_cons_none T v0 v1 rest true hb]
  constructor
  · intro he; rw [if_pos (by rw [he]; rfl)]
  · intro he; rw [if_neg (by rw [he]; simp)]

/-- C7 witness: `[0, 20, 5]` (units of `1e-11`) has no interior duplicate,
its first and last elements are epsilon-equal, and the first element is
removed. -/
theorem C7_wrap_no_interior_dup_witness :
    arrayRemoveDuplicates ratOps [q11 0, q11 20, q11 5] true = [q11 20, q11 5] :=
  (C7_wrap_no_interior_dup ratOps (q11 0) (q11 20) [q11 5] (by decide)).1 (by decide)

/-- C8: the checked entry point fails with the `DeveloperError` message
`values is required.` whenever the values argument is missing (whatever the
other arguments are), with `objectType is required.` whenever values is
present but the value-operations argument is missing, and succeeds — with no
error of any kind — whenever both are present. -/
theorem C8_argument_errors (vs : List α) (T : ObjectType α)
    (o : Option (ObjectType α)) (w : Option Bool) :
    arrayRemoveDuplicatesChecked (none : Option (List α)) o w
        = Except.error "values is required." ∧
    arrayRemoveDuplicatesChecked (some vs) (none : Option (ObjectType α)) w
        = Except.error "objectType is required." ∧
    arrayRemoveDuplicatesChecked (some vs) (some T) w
        = Except.ok (arrayRemoveDuplicates T vs (defaultValue w false)) :=
  ⟨rfl, rfl, rfl⟩

/-- C9: on a two-element input the result does not depend on `wrapAround`:
an epsilon-equal pair collapses to one element before the wrap-around length
check, and a non-equal pair makes the wrap-around comparison repeat the same
failed comparison. -/
theorem C9_two_element_wrap_irrelevant (T : ObjectType α) (a b : α) :
    arrayRemoveDuplicates T [a, b] true = arrayRemoveDuplicates T [a, b] false := by
  cases he : T.equalsEpsilon a b removeDuplicatesEpsilon
  · have hb : buildClean T a [b] = none := by
      rw [buildClean, if_neg (by simp [he])]
      rfl
    have hgl : ([b] : List α).getLastD a = b := by simp
    rw [arrayRemoveDuplicates_cons_none T a b [] true hb,
        arrayRemoveDuplicates_false_of_none T a b [] hb,
        if_neg (by rw [hgl, he]; simp)]
  · have hb : buildClean T a [b] = some [a] := by
      rw [buildClean, if_pos he, dedupFrom, if_pos he]
      rfl
    rw [arrayRemoveDuplicates_cons_some T a b [] true [a] hb,
        arrayRemoveDuplicates_false_of_some T a b [] [a] hb,
        if_neg (by simp)]

/-- C10: a non-empty input yields a non-empty output, the output is never
longer than the input, and the presence of an interior adjacent
epsilon-duplicate makes it strictly shorter. -/
theorem C10_length_bounds (T : ObjectType α) (values : List α) (wrapAround : Bool)
    (h : values ≠ []) :
    arrayRemoveDuplicates T values wrapAround ≠ [] ∧
    (arrayRemoveDuplicates T values wrapAround).length ≤ values.length ∧
    (hasAdjDup (eqE T) values = true →
      (arrayRemoveDuplicates T values wrapAround).length < values.length) := by
  match values with
  | [] => exact absurd rfl h
  | [v] =>
    rw [arrayRemoveDuplicates_short T [v] wrapAround (by simp)]
    refine ⟨by simp, Nat.le_refl _, fun hd => absurd hd (by simp [hasAdjDup])⟩
  | v0 :: v1 :: rest =>
    cases hb : buildClean T v0 (v1 :: rest) with
    | none =>
      have hclean := (buildClean_eq_none_iff T (v1 :: rest) v0).mp hb
      rw [arrayRemoveDuplicates_cons_none T v0 v1 rest wrapAround hb]
      refine ⟨?_, ?_, fun hd => absurd hd (by simp [hclean])⟩
      · split
        · simp
        · simp
      · split
        · simp only [List.length_cons]; omega
        · exact Nat.le_refl _
    | some cleaned =>
      obtain ⟨t, rfl⟩ := buildClean_shape T (v1 :: rest) v0 cleaned hb
      have hlen := buildClean_length_le T (v1 :: rest) v0 (v0 :: t) hb
      rw [arrayRemoveDuplicates_cons_some T v0 v1 rest wrapAround (v0 :: t) hb]
      refine ⟨?_, ?_, fun _ => ?_⟩
      · split
        next hcond =>
          simp only [Bool.and_eq_true] at hcond
          have h1 : 1 < (v0 :: t).length := of_decide_eq_true hcond.1.2
          rw [List.tail_cons]
          refine List.length_pos.mp ?_
          simp only [List.length_cons] at h1
          omega
        next => simp
      · split
        · rw [List.tail_cons]
          simp only [List.length_cons] at hlen ⊢
          omega
        · simp only [List.length_cons] at hlen ⊢
          omega
      · split
        · rw [List.tail_cons]
          simp only [List.length_cons] at hlen ⊢
          omega
        · simp only [List.length_cons] at hlen ⊢
          omega

/-- C10 witness: the length bounds evaluated at a concrete input. -/
theorem C10_length_bounds_witness :
    arrayRemoveDuplicates ratOps cexValues true ≠ [] ∧
    (arrayRemoveDuplicates ratOps cexValues true).length ≤ cexValues.length ∧
    (hasAdjDup (eqE ratOps) cexValues = true →
      (arrayRemoveDuplicates ratOps cexValues true).length < cexValues.length) :=
  C10_length_bounds ratOps cexValues true (by decide)
